import Mathlib

/-!
Verification of `src/main.py` from the repository `remote-python-dev`.

The program consists of a single recursive function `calculate_fibonacci`
and an entry point `main` that prints two lines.  We embed the function as
a total function on `Int` (Python integers are unbounded), the recursion
being well-founded because each recursive call strictly decreases `n`
towards the base case `n <= 1`.  The entry point is embedded as the list
of lines it writes to standard output.
-/

/-- Shallow embedding of `calculate_fibonacci` (src/main.py, lines 6-10):
```
def calculate_fibonacci(n: int) -> int:
    if n <= 1:
        return n
    return calculate_fibonacci(n-1) + calculate_fibonacci(n-2)
``` -/
def calculate_fibonacci (n : Int) : Int :=
  if n ≤ 1 then n
  else calculate_fibonacci (n - 1) + calculate_fibonacci (n - 2)
termination_by n.toNat
decreasing_by
  · omega
  · omega

/-- Shallow embedding of `main` (src/main.py, lines 12-19): the list of
lines it writes to standard output, in order.  `n` is the fixed literal
`10`; the second line is the f-string
`f"The {n}th Fibonacci number is: {result}"`. -/
def main_output : List String :=
  let n : Int := 10
  let result := calculate_fibonacci n
  ["Starting application...",
   "The " ++ toString n ++ "th Fibonacci number is: " ++ toString result]

/-- The unfolding equation of `calculate_fibonacci`, stated once for reuse. -/
lemma calculate_fibonacci_eq (n : Int) :
    calculate_fibonacci n =
      if n ≤ 1 then n
      else calculate_fibonacci (n - 1) + calculate_fibonacci (n - 2) := by
  rw [calculate_fibonacci]

/-- On natural-number inputs, `calculate_fibonacci` agrees with the
mathematical Fibonacci function `Nat.fib`. -/
lemma calc_eq_fib : ∀ k : Nat, calculate_fibonacci (k : Int) = (Nat.fib k : Int) := by
  intro k
  induction k using Nat.strong_induction_on with
  | _ k ih =>
    match k with
    | 0 => rw [calculate_fibonacci_eq]; norm_num
    | 1 => rw [calculate_fibonacci_eq]; norm_num
    | (m + 2) =>
      rw [calculate_fibonacci_eq]
      have h1 : ¬ ((m + 2 : Nat) : Int) ≤ 1 := by push_cast; omega
      rw [if_neg h1]
      have e1 : ((m + 2 : Nat) : Int) - 1 = ((m + 1 : Nat) : Int) := by push_cast; ring
      have e2 : ((m + 2 : Nat) : Int) - 2 = ((m : Nat) : Int) := by push_cast; ring
      rw [e1, e2, ih (m + 1) (by omega), ih m (by omega), Nat.fib_add_two]
      push_cast
      ring

/-- Fuel-indexed evaluator for `calculate_fibonacci`: it performs exactly
the recursion of the source, but returns `none` when the supplied fuel is
exhausted.  It is used to express that the recursion of the source
terminates on every integer input. -/
def fibFuel : Nat → Int → Option Int
  | 0, _ => none
  | fuel + 1, n =>
    if n ≤ 1 then some n
    else
      match fibFuel fuel (n - 1), fibFuel fuel (n - 2) with
      | some a, some b => some (a + b)
      | _, _ => none

/-- Fuel `n.toNat + 1` always suffices: the recursion reaches the base
case `n <= 1` on every call chain. -/
lemma fibFuel_total : ∀ (k : Nat) (n : Int), n.toNat ≤ k →
    fibFuel (k + 1) n = some (calculate_fibonacci n) := by
  intro k
  induction k with
  | zero =>
    intro n hn
    have h1 : n ≤ 1 := by omega
    rw [calculate_fibonacci_eq n, if_pos h1]
    simp [fibFuel, h1]
  | succ k ih =>
    intro n hn
    by_cases h1 : n ≤ 1
    · rw [calculate_fibonacci_eq n, if_pos h1]
      simp [fibFuel, h1]
    · have hr1 : fibFuel (k + 1) (n - 1) = some (calculate_fibonacci (n - 1)) :=
        ih (n - 1) (by omega)
      have hr2 : fibFuel (k + 1) (n - 2) = some (calculate_fibonacci (n - 2)) :=
        ih (n - 2) (by omega)
      rw [calculate_fibonacci_eq n, if_neg h1]
      rw [show fibFuel (k + 1 + 1) n = (if n ≤ 1 then some n
          else match fibFuel (k + 1) (n - 1), fibFuel (k + 1) (n - 2) with
            | some a, some b => some (a + b)
            | _, _ => none) from rfl]
      rw [if_neg h1, hr1, hr2]

/-- For every natural number `m`, `m + 6 < fib (m + 6)`: the Fibonacci
value strictly dominates the index from index 6 on. -/
lemma lt_fib_of_add_six (m : Nat) : m + 6 < Nat.fib (m + 6) := by
  induction m with
  | zero => decide
  | succ m ih =>
    have e1 : m + 1 + 6 = m + 5 + 2 := by omega
    rw [e1, @Nat.fib_add_two (m + 5)]
    have e2 : m + 5 + 1 = m + 6 := by omega
    rw [e2]
    have h2 : 0 < Nat.fib (m + 5) := Nat.fib_pos.mpr (by omega)
    omega

/-- C1: for every non-negative integer `n`, `calculate_fibonacci n` equals
the mathematical Fibonacci number `F(n)` with `F(0) = 0`, `F(1) = 1`,
`F(n) = F(n-1) + F(n-2)` (Mathlib's `Nat.fib`). -/
theorem calc_fib_correct (n : Nat) :
    calculate_fibonacci (n : Int) = (Nat.fib n : Int) :=
  calc_eq_fib n

/-- C2: running the entry point writes exactly the two lines
`Starting application...` and `The 10th Fibonacci number is: 55`, in this
order; in particular `calculate_fibonacci 10 = 55`. -/
theorem main_output_exact :
    main_output = ["Starting application...", "The 10th Fibonacci number is: 55"] ∧
    calculate_fibonacci 10 = 55 := by
  have h10 : calculate_fibonacci 10 = 55 := by
    have h := calc_eq_fib 10
    have e : ((10 : Nat) : Int) = (10 : Int) := by norm_num
    rw [e] at h
    rw [h]
    decide
  refine ⟨?_, h10⟩
  have hm : main_output = ["Starting application...",
      "The " ++ toString (10 : Int) ++ "th Fibonacci number is: " ++
        toString (calculate_fibonacci 10)] := rfl
  rw [hm, h10]
  rfl

/-- C3: `calculate_fibonacci n` returns `n` directly when `n <= 1` (hence
`0 ↦ 0` and `1 ↦ 1`), and otherwise returns
`calculate_fibonacci (n-1) + calculate_fibonacci (n-2)`. -/
theorem calc_fib_defining_cases (n : Int) :
    calculate_fibonacci n =
      (if n ≤ 1 then n else calculate_fibonacci (n - 1) + calculate_fibonacci (n - 2)) ∧
    calculate_fibonacci 0 = 0 ∧ calculate_fibonacci 1 = 1 := by
  refine ⟨calculate_fibonacci_eq n, ?_, ?_⟩
  · rw [calculate_fibonacci_eq]
    norm_num
  · rw [calculate_fibonacci_eq]
    norm_num

/-- C4: every negative integer is returned unchanged; no validation error
is raised on negative input. -/
theorem calc_fib_neg (n : Int) (h : n < 0) : calculate_fibonacci n = n := by
  rw [calculate_fibonacci_eq n, if_pos (by omega)]

/-- Witness for C4 at the concrete input `n = -5`. -/
theorem calc_fib_neg_w : (-5 : Int) < 0 ∧ calculate_fibonacci (-5) = -5 :=
  ⟨by decide, calc_fib_neg (-5) (by decide)⟩

/-- C5: for `2 <= n <= 20` the recurrence
`calculate_fibonacci n = calculate_fibonacci (n-1) + calculate_fibonacci (n-2)`
holds, and the values at `n = 2, ..., 20` are exactly the reference table
`1, 2, 3, 5, 8, 13, 21, 34, 55, 89, 144, 233, 377, 610, 987, 1597, 2584, 4181, 6765`. -/
theorem calc_fib_table (n : Int) (h2 : 2 ≤ n) (h20 : n ≤ 20) :
    calculate_fibonacci n = calculate_fibonacci (n - 1) + calculate_fibonacci (n - 2) ∧
    (List.range 19).map (fun (i : Nat) => calculate_fibonacci ((i : Int) + 2)) =
      [1, 2, 3, 5, 8, 13, 21, 34, 55, 89, 144, 233, 377, 610, 987, 1597, 2584, 4181, 6765] := by
  constructor
  · rw [calculate_fibonacci_eq n, if_neg (by omega)]
  · have hmap : ∀ i ∈ List.range 19,
        calculate_fibonacci ((i : Int) + 2) = ((Nat.fib (i + 2) : Nat) : Int) := by
      intro i _
      rw [show ((i : Int) + 2) = ((i + 2 : Nat) : Int) by push_cast; ring]
      exact calc_eq_fib (i + 2)
    rw [List.map_congr_left hmap]
    decide

/-- Witness for C5 at the concrete input `n = 10`. -/
theorem calc_fib_table_w :
    ((2 : Int) ≤ 10 ∧ (10 : Int) ≤ 20) ∧
    (calculate_fibonacci 10 = calculate_fibonacci (10 - 1) + calculate_fibonacci (10 - 2) ∧
     (List.range 19).map (fun (i : Nat) => calculate_fibonacci ((i : Int) + 2)) =
       [1, 2, 3, 5, 8, 13, 21, 34, 55, 89, 144, 233, 377, 610, 987, 1597, 2584, 4181, 6765]) :=
  ⟨⟨by decide, by decide⟩, calc_fib_table 10 (by decide) (by decide)⟩

/-- C6: monotonicity — for every integer `n >= 0`,
`calculate_fibonacci (n+1) >= calculate_fibonacci n`. -/
theorem calc_fib_monotone (n : Int) (h : 0 ≤ n) :
    calculate_fibonacci n ≤ calculate_fibonacci (n + 1) := by
  obtain ⟨k, rfl⟩ : ∃ k : Nat, n = (k : Int) := ⟨n.toNat, by omega⟩
  rw [show ((k : Int) + 1) = ((k + 1 : Nat) : Int) by push_cast; ring,
    calc_eq_fib, calc_eq_fib]
  exact_mod_cast Nat.fib_le_fib_succ

/-- Witness for C6 at the concrete input `n = 3`. -/
theorem calc_fib_monotone_w :
    (0 : Int) ≤ 3 ∧ calculate_fibonacci 3 ≤ calculate_fibonacci (3 + 1) :=
  ⟨by decide, calc_fib_monotone 3 (by decide)⟩

/-- C7: determinism and purity — two calls of `calculate_fibonacci` at the
same input yield the same result; in the embedding the function is a pure
mathematical function of its argument alone, with no hidden state. -/
theorem calc_fib_deterministic (n : Int) :
    calculate_fibonacci n = calculate_fibonacci n := rfl

/-- C8: termination — for every integer input `n`, fuel `n.toNat + 1`
suffices for the fueled evaluator to return a value (never `none`), and
that value is `calculate_fibonacci n`; negative inputs need only one unit
of fuel, returning from the base case with no recursive call. -/
theorem calc_fib_terminates (n : Int) :
    fibFuel (n.toNat + 1) n = some (calculate_fibonacci n) :=
  fibFuel_total n.toNat n le_rfl

/-- C9: strict monotonicity from `n = 2` on — for every integer `n >= 2`,
`calculate_fibonacci (n+1) > calculate_fibonacci n`. -/
theorem calc_fib_strictMono (n : Int) (h : 2 ≤ n) :
    calculate_fibonacci n < calculate_fibonacci (n + 1) := by
  obtain ⟨k, rfl⟩ : ∃ k : Nat, n = (k : Int) := ⟨n.toNat, by omega⟩
  rw [show ((k : Int) + 1) = ((k + 1 : Nat) : Int) by push_cast; ring,
    calc_eq_fib, calc_eq_fib]
  have hk : 2 ≤ k := by exact_mod_cast h
  exact_mod_cast Nat.fib_lt_fib_succ hk

/-- Witness for C9 at the concrete input `n = 2`. -/
theorem calc_fib_strictMono_w :
    (2 : Int) ≤ 2 ∧ calculate_fibonacci 2 < calculate_fibonacci (2 + 1) :=
  ⟨by decide, calc_fib_strictMono 2 (by decide)⟩

/-- C10: fixed-point characterization of the pass-through quirk —
`calculate_fibonacci n = n` if and only if `n <= 1` or `n = 5`. -/
theorem calc_fib_fixed_points (n : Int) :
    calculate_fibonacci n = n ↔ (n ≤ 1 ∨ n = 5) := by
  constructor
  · intro hfix
    by_cases h1 : n ≤ 1
    · exact Or.inl h1
    · right
      obtain ⟨k, rfl⟩ : ∃ k : Nat, n = (k : Int) := ⟨n.toNat, by omega⟩
      have hfib : Nat.fib k = k := by
        rw [calc_eq_fib k] at hfix
        exact_mod_cast hfix
      have hk : 2 ≤ k := by exact_mod_cast (show (2 : Int) ≤ (k : Int) by omega)
      by_cases h6 : 6 ≤ k
      · exfalso
        have hlt := lt_fib_of_add_six (k - 6)
        have e : k - 6 + 6 = k := by omega
        rw [e] at hlt
        omega
      · have hk6 : k < 6 := by omega
        interval_cases k
        · exact absurd hfib (by decide)
        · exact absurd hfib (by decide)
        · exact absurd hfib (by decide)
        · norm_num
  · rintro (h1 | rfl)
    · rw [calculate_fibonacci_eq n, if_pos h1]
    · rw [show (5 : Int) = ((5 : Nat) : Int) by norm_num, calc_eq_fib 5]
      decide
